import Mathlib

set_option maxHeartbeats 1000000

/-
A verification development for ardump.c, a tool that dumps the table of
contents of a BSD-format ar archive.

The mapped input file is modelled as a byte memory `mem : Nat → Nat` together
with its length `len`.  Every memory access the C program performs is
bounds-checked in the model; an access outside `[0, len)` yields the error
marker `Err.oobRead`, which stands for the C program dereferencing past the
mapped buffer (undefined behavior in the source).  The three `fatal` calls the
program can make while scanning are the remaining error constructors.
Multi-byte integers are read little-endian, matching the source's documented
assumption that the host byte order matches the file's (the tool targets
little-endian hosts).  Signed-integer overflow inside `atoi` is not modelled
(it is undefined behavior in the source); the `size_t` and `int` conversions
the source performs are modelled exactly as two's-complement wrapping.
-/

deriving instance DecidableEq for Except

namespace Ardump

inductive Err where
  | oobRead
  | badMagic
  | fatArchive
  | badFmag
deriving DecidableEq

inductive Ev where
  | memberHdr (name : List Nat) (isExt : Bool)
      (date uid gid mode size fmag : List Nat)
  | nranlibsEv (n : Nat)
  | symV (strx : Nat) (sym : List Nat) (ranOff : Nat) (memName : List Nat)
  | symP (sym : List Nat) (memName : List Nat)
deriving DecidableEq

/- Header-field meta-data of `struct ar_hdr` (ar.h):
   ar_name[16] ar_date[12] ar_uid[6] ar_gid[6] ar_mode[8] ar_size[10]
   ar_fmag[2], 60 bytes total. -/

def hdrSize : Nat := 60

/- "!<arch>\n" and its length SARMAG. -/
def ARMAGb : List Nat := [33, 60, 97, 114, 99, 104, 62, 10, 0]

def SARMAG : Nat := 8

/- AR_EFMT1 = "#1/". -/
def AR_EFMT1b : List Nat := [35, 49, 47, 0]

/- ARFMAG = "`\n". -/
def ARFMAGb : List Nat := [96, 10, 0]

/- SYMDEF = "__.SYMDEF". -/
def SYMDEFb : List Nat := [95, 95, 46, 83, 89, 77, 68, 69, 70, 0]

/- SYMDEF_SORTED = "__.SYMDEF SORTED". -/
def SYMDEF_SORTEDb : List Nat :=
  [95, 95, 46, 83, 89, 77, 68, 69, 70, 32, 83, 79, 82, 84, 69, 68, 0]

def FAT_MAGIC : Nat := 0xcafebabe

def FAT_CIGAM : Nat := 0xbebafeca

/- sizeof(struct ranlib) = 8: u32 ran_strx, u32 ran_off. -/
def ranlibSize : Nat := 8

/- A host-native (little-endian) 4-byte load. -/
def readU32 (mem : Nat → Nat) (len p : Nat) : Except Err Nat :=
  if p + 4 ≤ len then
    .ok (mem p + 256 * mem (p + 1) + 65536 * mem (p + 2) +
          16777216 * mem (p + 3))
  else .error .oobRead

/- strncmp(buffer + p, lit, n) == 0, where `lit` is a NUL-terminated string
   literal of the program.  Compares byte for byte, stopping at the first
   mismatch or at a NUL; only the buffer side may run out of bounds. -/
def strncmpLit (mem : Nat → Nat) (len : Nat) :
    Nat → List Nat → Nat → Except Err Bool
  | _, _, 0 => .ok true
  | p, lit, n + 1 =>
    if p < len then
      if mem p = lit.headD 0 then
        if mem p = 0 then .ok true
        else strncmpLit mem len (p + 1) lit.tail n
      else .ok false
    else .error .oobRead

def isSpaceB (c : Nat) : Bool :=
  c = 32 || c = 9 || c = 10 || c = 11 || c = 12 || c = 13

/- The whitespace skip of atoi; the fuel argument is always called with
   `len + 1 - p`, which makes the fuel-0 case coincide with the out-of-bounds
   read the C library function would perform there. -/
def skipSpacesF (mem : Nat → Nat) (len : Nat) : Nat → Nat → Except Err Nat
  | _, 0 => .error .oobRead
  | p, fuel + 1 =>
    if p < len then
      if isSpaceB (mem p) then skipSpacesF mem len (p + 1) fuel else .ok p
    else .error .oobRead

/- The digit loop of atoi, accumulating a value; stops at (and reads) the
   first non-digit byte. -/
def readDigitsF (mem : Nat → Nat) (len : Nat) :
    Nat → Nat → Nat → Except Err Nat
  | _, _, 0 => .error .oobRead
  | p, acc, fuel + 1 =>
    if p < len then
      if 48 ≤ mem p ∧ mem p ≤ 57 then
        readDigitsF mem len (p + 1) (acc * 10 + (mem p - 48)) fuel
      else .ok acc
    else .error .oobRead

/- atoi(buffer + p): skip spaces, optional sign, digits. -/
def atoiAt (mem : Nat → Nat) (len p : Nat) : Except Err Int :=
  match skipSpacesF mem len p (len + 1 - p) with
  | .error e => .error e
  | .ok q =>
    if mem q = 45 then
      match readDigitsF mem len (q + 1) 0 (len + 1 - (q + 1)) with
      | .error e => .error e
      | .ok v => .ok (-(v : Int))
    else if mem q = 43 then
      match readDigitsF mem len (q + 1) 0 (len + 1 - (q + 1)) with
      | .error e => .error e
      | .ok v => .ok ((v : Int))
    else
      match readDigitsF mem len q 0 (len + 1 - q) with
      | .error e => .error e
      | .ok v => .ok ((v : Int))

/- The size_t conversion of a (possibly negative) int value. -/
def toSizeT (v : Int) : Nat := (v % (18446744073709551616 : Int)).toNat

/- The int conversion of a size_t value (two's complement wrap). -/
def i32ofSize (x : Nat) : Int :=
  let r := x % 4294967296
  if r < 2147483648 then (r : Int) else (r : Int) - 4294967296

/- The iteration count of `printn(str, n)` for an int argument n: no
   iterations when n is negative. -/
def printCount (x : Nat) : Nat := (i32ofSize x).toNat

/- The hand-rolled strnlen loop of arobj_name:
   `for (i = 0; header->ar_name[i] && i < 16; ++i)`.
   Note the byte at index i is read before the `i < 16` test, exactly as in
   the source.  The fuel is always 17 - i and never reaches 0. -/
def strnlenF (mem : Nat → Nat) (len base : Nat) : Nat → Nat → Except Err Nat
  | i, 0 => .ok i
  | i, fuel + 1 =>
    if base + i < len then
      if mem (base + i) = 0 then .ok i
      else if i < 16 then strnlenF mem len base (i + 1) fuel
      else .ok i
    else .error .oobRead

/- memcpy(dst, buffer + p, n): reads exactly n bytes. -/
def bytesAt (mem : Nat → Nat) (len : Nat) : Nat → Nat → Except Err (List Nat)
  | _, 0 => .ok []
  | p, n + 1 =>
    if p < len then
      match bytesAt mem len (p + 1) n with
      | .error e => .error e
      | .ok l => .ok (mem p :: l)
    else .error .oobRead

/- The bytes printed by `printn(buffer + p, n)`: stops at the first NUL or
   after n bytes, whichever comes first. -/
def printnBytes (mem : Nat → Nat) (len : Nat) :
    Nat → Nat → Except Err (List Nat)
  | _, 0 => .ok []
  | p, n + 1 =>
    if p < len then
      if mem p = 0 then .ok []
      else
        match printnBytes mem len (p + 1) n with
        | .error e => .error e
        | .ok l => .ok (mem p :: l)
    else .error .oobRead

/- The NUL-terminated string printed by printf's %s from buffer offset p.
   The fuel is always `len + 1 - p`, making the fuel-0 case coincide with the
   out-of-bounds read. -/
def cstrAtF (mem : Nat → Nat) (len : Nat) : Nat → Nat → Except Err (List Nat)
  | _, 0 => .error .oobRead
  | p, fuel + 1 =>
    if p < len then
      if mem p = 0 then .ok []
      else
        match cstrAtF mem len (p + 1) fuel with
        | .error e => .error e
        | .ok l => .ok (mem p :: l)
    else .error .oobRead

def cstrAt (mem : Nat → Nat) (len p : Nat) : Except Err (List Nat) :=
  cstrAtF mem len p (len + 1 - p)

/- strtoll(buf, NULL, 10) on a NUL-terminated local copy of the 10-byte
   ar_size field (the copy cannot overflow a long long). -/
def dropSpacesL : List Nat → List Nat
  | [] => []
  | c :: r => if isSpaceB c then dropSpacesL r else c :: r

def digitsValL : List Nat → Nat → Nat
  | [], acc => acc
  | c :: r, acc =>
    if 48 ≤ c ∧ c ≤ 57 then digitsValL r (acc * 10 + (c - 48)) else acc

def parseLL (l : List Nat) : Int :=
  match dropSpacesL l with
  | 45 :: r => -((digitsValL r 0 : Nat) : Int)
  | 43 :: r => ((digitsValL r 0 : Nat) : Int)
  | r => ((digitsValL r 0 : Nat) : Int)

/- The result of arobj_name: position of the name bytes in the buffer, the
   name length written to *out_len, and the is-bsd-extended-name flag. -/
structure NameRes where
  namePos : Nat
  nameLen : Nat
  isExt : Bool
deriving DecidableEq

/- arobj_name(header at offset o): if the name field does not begin with
   AR_EFMT1 ("#1/"), the name is the field itself with the hand-rolled
   strnlen bound; otherwise the name is the atoi-parsed length of bytes
   immediately following the header. -/
def arobj_name (mem : Nat → Nat) (len o : Nat) : Except Err NameRes :=
  match strncmpLit mem len o AR_EFMT1b 3 with
  | .error e => .error e
  | .ok false =>
    match strnlenF mem len o 0 17 with
    | .error e => .error e
    | .ok n => .ok ⟨o, n, false⟩
  | .ok true =>
    match atoiAt mem len (o + 3) with
    | .error e => .error e
    | .ok v => .ok ⟨o + hdrSize, toSizeT v, true⟩

/- arobj_size(header at offset o): copy the 10 ar_size bytes (offset o+48),
   strtoll them and add sizeof(struct ar_hdr) = 60.  No padding of any kind
   is added. -/
def arobj_size (mem : Nat → Nat) (len o : Nat) : Except Err Int :=
  match bytesAt mem len (o + 48) 10 with
  | .error e => .error e
  | .ok bs => .ok (parseLL bs + 60)

/- dump_obj(header at offset o), executed only in verbose mode: resolves the
   name, prints name and the raw header fields, then checks ar_fmag against
   ARFMAG and calls fatal on mismatch. -/
def dump_obj (mem : Nat → Nat) (len o : Nat) : Except Err (List Ev) :=
  match arobj_name mem len o with
  | .error e => .error e
  | .ok nr =>
    match printnBytes mem len nr.namePos (printCount nr.nameLen) with
    | .error e => .error e
    | .ok nameB =>
      match printnBytes mem len (o + 16) 12 with
      | .error e => .error e
      | .ok dateB =>
        match printnBytes mem len (o + 28) 6 with
        | .error e => .error e
        | .ok uidB =>
          match printnBytes mem len (o + 34) 6 with
          | .error e => .error e
          | .ok gidB =>
            match printnBytes mem len (o + 40) 8 with
            | .error e => .error e
            | .ok modeB =>
              match printnBytes mem len (o + 48) 10 with
              | .error e => .error e
              | .ok sizeB =>
                match printnBytes mem len (o + 58) 2 with
                | .error e => .error e
                | .ok fmagB =>
                  match strncmpLit mem len (o + 58) ARFMAGb 2 with
                  | .error e => .error e
                  | .ok true =>
                    .ok [Ev.memberHdr nameB nr.isExt dateB uidB gidB modeB
                          sizeB fmagB]
                  | .ok false => .error .badFmag

/- The index-member test of dump():
   !strncmp(name, SYMDEF, name_len) || !strncmp(name, SYMDEF_SORTED, name_len).
   Note the comparison length is the resolved name's own length. -/
def symdefTest (mem : Nat → Nat) (len : Nat) (nr : NameRes) :
    Except Err Bool :=
  match strncmpLit mem len nr.namePos SYMDEFb nr.nameLen with
  | .error e => .error e
  | .ok true => .ok true
  | .ok false => strncmpLit mem len nr.namePos SYMDEF_SORTEDb nr.nameLen

/- One iteration of the ranlib loop of dump_symdefs, in source read order:
   ran_off, the re-entrant arobj_name at that offset, the memcpy of the
   member name, ran_strx, and the %s read of the symbol string. -/
def ranlibEntry (mem : Nat → Nat) (len entryP strtabP : Nat)
    (verbose : Bool) : Except Err Ev :=
  match readU32 mem len (entryP + 4) with
  | .error e => .error e
  | .ok ranOff =>
    match arobj_name mem len ranOff with
    | .error e => .error e
    | .ok nr =>
      match bytesAt mem len nr.namePos nr.nameLen with
      | .error e => .error e
      | .ok nameB =>
        match readU32 mem len entryP with
        | .error e => .error e
        | .ok strx =>
          match cstrAt mem len (strtabP + strx) with
          | .error e => .error e
          | .ok symB =>
            if verbose then
              .ok (Ev.symV strx symB ranOff
                    (nameB.takeWhile (fun c => c ≠ 0)))
            else
              .ok (Ev.symP symB (nameB.takeWhile (fun c => c ≠ 0)))

def ranlibLoop (mem : Nat → Nat) (len : Nat) (strtabP : Nat)
    (verbose : Bool) : Nat → Nat → Except Err (List Ev)
  | _, 0 => .ok []
  | entryP, n + 1 =>
    match ranlibEntry mem len entryP strtabP verbose with
    | .error e => .error e
    | .ok ev =>
      match ranlibLoop mem len strtabP verbose (entryP + 8) n with
      | .error e => .error e
      | .ok evs => .ok (ev :: evs)

/- dump_symdefs(header at offset o, offset): the payload of the index member
   starts at o + 60 + offset (offset is the extended-name length when the
   index member's own name is extended).  Reads the 4-byte ranlib array
   length, derives the entry count, reads (and ignores) the string-table
   length field, then decodes each entry.  No bound derived from these
   untrusted fields is ever checked against the buffer. -/
def dump_symdefs (mem : Nat → Nat) (len o offset : Nat) (verbose : Bool) :
    Except Err (List Ev) :=
  match readU32 mem len (o + hdrSize + offset) with
  | .error e => .error e
  | .ok ranlibLen =>
    match readU32 mem len (o + hdrSize + offset + ranlibLen + 4) with
    | .error e => .error e
    | .ok _ =>
      match ranlibLoop mem len (o + hdrSize + offset + ranlibLen + 8) verbose
              (o + hdrSize + offset + 4) (ranlibLen / ranlibSize) with
      | .error e => .error e
      | .ok evs =>
        .ok ((if verbose then [Ev.nranlibsEv (ranlibLen / ranlibSize)]
              else []) ++ evs)

/- The body of one iteration of dump()'s member loop at header offset o:
   verbose dump_obj, name resolution, the index-member test, possibly
   dump_symdefs, and arobj_size for the advance. -/
def dumpStep (mem : Nat → Nat) (len : Nat) (verbose : Bool) (o : Nat) :
    Except Err (List Ev × Int) :=
  match (if verbose then dump_obj mem len o else .ok []) with
  | .error e => .error e
  | .ok evs1 =>
    match arobj_name mem len o with
    | .error e => .error e
    | .ok nr =>
      match symdefTest mem len nr with
      | .error e => .error e
      | .ok isSym =>
        match (if isSym then
                dump_symdefs mem len o (if nr.isExt then nr.nameLen else 0)
                  verbose
              else .ok []) with
        | .error e => .error e
        | .ok evs2 =>
          match arobj_size mem len o with
          | .error e => .error e
          | .ok sz => .ok (evs1 ++ evs2, sz)

/- The member loop `while (contents < contents_end)`, advancing by
   arobj_size.  The offset is an integer because the parsed size may be
   negative; a header read at a negative offset is an out-of-bounds access.
   The fuel bounds the number of iterations modelled; `none` means the loop
   has not finished within the given fuel. -/
def dumpLoop (mem : Nat → Nat) (len : Nat) (verbose : Bool) :
    Int → Nat → Option (Except Err (List Ev))
  | _, 0 => none
  | off, fuel + 1 =>
    if off < (len : Int) then
      if 0 ≤ off then
        match dumpStep mem len verbose off.toNat with
        | .error e => some (.error e)
        | .ok (evs, sz) =>
          match dumpLoop mem len verbose (off + sz) fuel with
          | none => none
          | some (.error e) => some (.error e)
          | some (.ok evs2) => some (.ok (evs ++ evs2))
      else some (.error .oobRead)
    else some (.ok [])

/- dump(contents, contents_end): magic validation then the member loop.
   A buffer not starting with ARMAG is probed for the fat magic in either
   byte order (host-native u32 load) to pick the fatal diagnostic. -/
def dump (mem : Nat → Nat) (len : Nat) (verbose : Bool) (fuel : Nat) :
    Option (Except Err (List Ev)) :=
  match strncmpLit mem len 0 ARMAGb SARMAG with
  | .error e => some (.error e)
  | .ok true => dumpLoop mem len verbose (SARMAG : Int) fuel
  | .ok false =>
    match readU32 mem len 0 with
    | .error e => some (.error e)
    | .ok v =>
      if v = FAT_MAGIC ∨ v = FAT_CIGAM then some (.error .fatArchive)
      else some (.error .badMagic)

/- A byte memory backed by a concrete list, 0 beyond the end. -/
def buf (l : List Nat) : Nat → Nat := fun i => l.getD i 0

def armag8 : List Nat := [33, 60, 97, 114, 99, 104, 62, 10]

/- A 60-byte member header from its name, size and fmag fields, the date,
   uid, gid and mode fields all zero. -/
def mkHdr (name size fmag : List Nat) : List Nat :=
  name ++ List.replicate 32 0 ++ size ++ fmag

def spc (n : Nat) : List Nat := List.replicate n 32

def zb (n : Nat) : List Nat := List.replicate n 0

/- Magic plus a single 68-byte member named "__.SYMDEF" whose declared
   payload size is 0: the index decoder starts reading at offset 68, the end
   of the buffer. -/
def cexC1buf : List Nat :=
  armag8 ++
    mkHdr ([95, 95, 46, 83, 89, 77, 68, 69, 70] ++ zb 7) ([48] ++ spc 9)
      [96, 10]

/- Magic plus a single member with extended name "#1/100" and no bytes after
   its 60-byte header: a declared 100-byte name in a 68-byte buffer. -/
def cexC2buf : List Nat :=
  armag8 ++
    mkHdr ([35, 49, 47, 49, 48, 48] ++ zb 10) ([48] ++ spc 9) [96, 10]

/- Magic plus a single member named "a" with a corrupted ar_fmag field
   ("XX" instead of the backquote-newline literal). -/
def cexC3buf : List Nat :=
  armag8 ++ mkHdr ([97] ++ zb 15) ([48] ++ spc 9) [88, 88]

/- Magic plus a single member named "__" (neither index-member name). -/
def cexC4buf : List Nat :=
  armag8 ++ mkHdr ([95, 95] ++ zb 14) ([48] ++ spc 9) [96, 10]

/- Magic plus a single member whose ar_size field reads "-60": strtoll gives
   -60, so the computed total member size is -60 + 60 = 0 and the walker
   never advances. -/
def cexC5buf : List Nat :=
  armag8 ++ mkHdr ([97] ++ zb 15) ([45, 54, 48] ++ spc 7) [96, 10]

/- Magic plus a single member whose name field begins with a NUL byte: the
   resolved name has length zero. -/
def cexC10buf : List Nat :=
  armag8 ++ mkHdr (zb 16) ([48] ++ spc 9) [96, 10]

/- A well-formed archive: an index member "__.SYMDEF" whose payload holds one
   ranlib entry (string offset 0, member offset 86) and the string table
   "f\0", followed by a member named "b" at offset 86. -/
def goodBuf : List Nat :=
  armag8 ++
    mkHdr ([95, 95, 46, 83, 89, 77, 68, 69, 70] ++ zb 7) ([49, 56] ++ spc 8)
      [96, 10] ++
    [8, 0, 0, 0] ++ [0, 0, 0, 0] ++ [86, 0, 0, 0] ++ [2, 0, 0, 0] ++
    [102, 0] ++
    mkHdr ([98] ++ zb 15) ([48] ++ spc 9) [96, 10]

/- The per-offset size sanity condition used to state bounded termination:
   whenever the loop body succeeds at offset o, the computed total member
   size is at least 1 (the walker strictly advances). -/
def stepSizeOK (mem : Nat → Nat) (len : Nat) (v : Bool) (o : Nat) : Bool :=
  match dumpStep mem len v o with
  | .error _ => true
  | .ok (_, sz) => decide ((1 : Int) ≤ sz)

/- Whether a scan result is the terminator-mismatch fatal error. -/
def resultHasFmagErr (r : Option (Except Err (List Ev))) : Bool :=
  match r with
  | some (.error .badFmag) => true
  | _ => false

/- The scan diverges: no amount of fuel finishes it. -/
def dumpDiverges (mem : Nat → Nat) (len : Nat) (v : Bool) : Prop :=
  ∀ fuel, dump mem len v fuel = none

/- A memory agreeing with cexC3buf on the 68-byte buffer but different
   beyond it. -/
def memBeyond : Nat → Nat := fun i => if i < 68 then buf cexC3buf i else 99

/-
Error classification: every failing component below the walker fails with
the out-of-bounds marker; the only other failures the program has are the
three fatal diagnostics of dump and dump_obj.
-/

theorem readU32_err (mem : Nat → Nat) (len p : Nat) (e : Err)
    (h : readU32 mem len p = .error e) : e = .oobRead := by
  unfold readU32 at h
  split at h
  · simp at h
  · exact (Except.error.inj h).symm

theorem strncmpLit_err (mem : Nat → Nat) (len : Nat) (n : Nat) :
    ∀ (p : Nat) (lit : List Nat) (e : Err),
      strncmpLit mem len p lit n = .error e → e = .oobRead := by
  induction n with
  | zero => intro p lit e h; simp [strncmpLit] at h
  | succ n ih =>
    intro p lit e h
    simp only [strncmpLit] at h
    split at h
    · split at h
      · split at h
        · simp at h
        · exact ih _ _ _ h
      · simp at h
    · exact (Except.error.inj h).symm

theorem skipSpacesF_err (mem : Nat → Nat) (len : Nat) (fuel : Nat) :
    ∀ (p : Nat) (e : Err),
      skipSpacesF mem len p fuel = .error e → e = .oobRead := by
  induction fuel with
  | zero =>
    intro p e h
    simp only [skipSpacesF] at h
    exact (Except.error.inj h).symm
  | succ fuel ih =>
    intro p e h
    simp only [skipSpacesF] at h
    split at h
    · split at h
      · exact ih _ _ h
      · simp at h
    · exact (Except.error.inj h).symm

theorem readDigitsF_err (mem : Nat → Nat) (len : Nat) (fuel : Nat) :
    ∀ (p acc : Nat) (e : Err),
      readDigitsF mem len p acc fuel = .error e → e = .oobRead := by
  induction fuel with
  | zero =>
    intro p acc e h
    simp only [readDigitsF] at h
    exact (Except.error.inj h).symm
  | succ fuel ih =>
    intro p acc e h
    simp only [readDigitsF] at h
    split at h
    · split at h
      · exact ih _ _ _ h
      · simp at h
    · exact (Except.error.inj h).symm

theorem atoiAt_err (mem : Nat → Nat) (len p : Nat) (e : Err)
    (h : atoiAt mem len p = .error e) : e = .oobRead := by
  unfold atoiAt at h
  cases hs : skipSpacesF mem len p (len + 1 - p) with
  | error e1 =>
    rw [hs] at h
    dsimp only at h
    simp only [Except.error.injEq] at h
    exact h ▸ skipSpacesF_err mem len _ _ _ hs
  | ok q =>
    rw [hs] at h
    dsimp only at h
    by_cases h45 : mem q = 45
    · rw [if_pos h45] at h
      cases hd : readDigitsF mem len (q + 1) 0 (len + 1 - (q + 1)) with
      | error e1 =>
        rw [hd] at h
        simp only [Except.error.injEq] at h
        exact h ▸ readDigitsF_err mem len _ _ _ _ hd
      | ok v => rw [hd] at h; simp at h
    · rw [if_neg h45] at h
      by_cases h43 : mem q = 43
      · rw [if_pos h43] at h
        cases hd : readDigitsF mem len (q + 1) 0 (len + 1 - (q + 1)) with
        | error e1 =>
          rw [hd] at h
          simp only [Except.error.injEq] at h
          exact h ▸ readDigitsF_err mem len _ _ _ _ hd
        | ok v => rw [hd] at h; simp at h
      · rw [if_neg h43] at h
        cases hd : readDigitsF mem len q 0 (len + 1 - q) with
        | error e1 =>
          rw [hd] at h
          simp only [Except.error.injEq] at h
          exact h ▸ readDigitsF_err mem len _ _ _ _ hd
        | ok v => rw [hd] at h; simp at h

theorem strnlenF_err (mem : Nat → Nat) (len base : Nat) (fuel : Nat) :
    ∀ (i : Nat) (e : Err),
      strnlenF mem len base i fuel = .error e → e = .oobRead := by
  induction fuel with
  | zero => intro i e h; simp [strnlenF] at h
  | succ fuel ih =>
    intro i e h
    simp only [strnlenF] at h
    split at h
    · split at h
      · simp at h
      · split at h
        · exact ih _ _ h
        · simp at h
    · exact (Except.error.inj h).symm

theorem bytesAt_err (mem : Nat → Nat) (len : Nat) (n : Nat) :
    ∀ (p : Nat) (e : Err),
      bytesAt mem len p n = .error e → e = .oobRead := by
  induction n with
  | zero => intro p e h; simp [bytesAt] at h
  | succ n ih =>
    intro p e h
    simp only [bytesAt] at h
    split at h
    · split at h
      · next e1 heq =>
        simp only [Except.error.injEq] at h
        exact h ▸ ih _ _ heq
      · simp at h
    · exact (Except.error.inj h).symm

theorem printnBytes_err (mem : Nat → Nat) (len : Nat) (n : Nat) :
    ∀ (p : Nat) (e : Err),
      printnBytes mem len p n = .error e → e = .oobRead := by
  induction n with
  | zero => intro p e h; simp [printnBytes] at h
  | succ n ih =>
    intro p e h
    simp only [printnBytes] at h
    split at h
    · split at h
      · simp at h
      · split at h
        · next e1 heq =>
          simp only [Except.error.injEq] at h
          exact h ▸ ih _ _ heq
        · simp at h
    · exact (Except.error.inj h).symm

theorem cstrAtF_err (mem : Nat → Nat) (len : Nat) (fuel : Nat) :
    ∀ (p : Nat) (e : Err),
      cstrAtF mem len p fuel = .error e → e = .oobRead := by
  induction fuel with
  | zero =>
    intro p e h
    simp only [cstrAtF] at h
    exact (Except.error.inj h).symm
  | succ fuel ih =>
    intro p e h
    simp only [cstrAtF] at h
    split at h
    · split at h
      · simp at h
      · split at h
        · next e1 heq =>
          simp only [Except.error.injEq] at h
          exact h ▸ ih _ _ heq
        · simp at h
    · exact (Except.error.inj h).symm

theorem cstrAt_err (mem : Nat → Nat) (len p : Nat) (e : Err)
    (h : cstrAt mem len p = .error e) : e = .oobRead :=
  cstrAtF_err mem len _ _ _ h

theorem arobj_name_err (mem : Nat → Nat) (len o : Nat) (e : Err)
    (h : arobj_name mem len o = .error e) : e = .oobRead := by
  unfold arobj_name at h
  split at h
  · next heq =>
    simp only [Except.error.injEq] at h
    exact h ▸ strncmpLit_err mem len _ _ _ _ heq
  · split at h
    · next heq =>
      simp only [Except.error.injEq] at h
      exact h ▸ strnlenF_err mem len _ _ _ _ heq
    · simp at h
  · split at h
    · next heq =>
      simp only [Except.error.injEq] at h
      exact h ▸ atoiAt_err mem len _ _ heq
    · simp at h

theorem arobj_size_err (mem : Nat → Nat) (len o : Nat) (e : Err)
    (h : arobj_size mem len o = .error e) : e = .oobRead := by
  unfold arobj_size at h
  split at h
  · next heq =>
    simp only [Except.error.injEq] at h
    exact h ▸ bytesAt_err mem len _ _ _ heq
  · simp at h

theorem symdefTest_err (mem : Nat → Nat) (len : Nat) (nr : NameRes)
    (e : Err) (h : symdefTest mem len nr = .error e) : e = .oobRead := by
  unfold symdefTest at h
  split at h
  · next heq =>
    simp only [Except.error.injEq] at h
    exact h ▸ strncmpLit_err mem len _ _ _ _ heq
  · simp at h
  · exact strncmpLit_err mem len _ _ _ _ h

theorem ranlibEntry_err (mem : Nat → Nat) (len entryP strtabP : Nat)
    (v : Bool) (e : Err)
    (h : ranlibEntry mem len entryP strtabP v = .error e) : e = .oobRead := by
  unfold ranlibEntry at h
  split at h
  · next heq =>
    simp only [Except.error.injEq] at h
    exact h ▸ readU32_err mem len _ _ heq
  · split at h
    · next heq =>
      simp only [Except.error.injEq] at h
      exact h ▸ arobj_name_err mem len _ _ heq
    · split at h
      · next heq =>
        simp only [Except.error.injEq] at h
        exact h ▸ bytesAt_err mem len _ _ _ heq
      · split at h
        · next heq =>
          simp only [Except.error.injEq] at h
          exact h ▸ readU32_err mem len _ _ heq
        · split at h
          · next heq =>
            simp only [Except.error.injEq] at h
            exact h ▸ cstrAt_err mem len _ _ heq
          · split at h <;> simp at h

theorem ranlibLoop_err (mem : Nat → Nat) (len strtabP : Nat) (v : Bool)
    (n : Nat) :
    ∀ (entryP : Nat) (e : Err),
      ranlibLoop mem len strtabP v entryP n = .error e → e = .oobRead := by
  induction n with
  | zero => intro entryP e h; simp [ranlibLoop] at h
  | succ n ih =>
    intro entryP e h
    simp only [ranlibLoop] at h
    split at h
    · next heq =>
      simp only [Except.error.injEq] at h
      exact h ▸ ranlibEntry_err mem len _ _ _ _ heq
    · split at h
      · next heq =>
        simp only [Except.error.injEq] at h
        exact h ▸ ih _ _ heq
      · simp at h

theorem dump_symdefs_err (mem : Nat → Nat) (len o offset : Nat) (v : Bool)
    (e : Err) (h : dump_symdefs mem len o offset v = .error e) :
    e = .oobRead := by
  unfold dump_symdefs at h
  cases h1 : readU32 mem len (o + hdrSize + offset) with
  | error e1 =>
    rw [h1] at h
    dsimp only at h
    simp only [Except.error.injEq] at h
    exact h ▸ readU32_err mem len _ _ h1
  | ok rl =>
    rw [h1] at h
    dsimp only at h
    cases h2 : readU32 mem len (o + hdrSize + offset + rl + 4) with
    | error e1 =>
      rw [h2] at h
      dsimp only at h
      simp only [Except.error.injEq] at h
      exact h ▸ readU32_err mem len _ _ h2
    | ok stl =>
      rw [h2] at h
      dsimp only at h
      cases h3 : ranlibLoop mem len (o + hdrSize + offset + rl + 8) v
          (o + hdrSize + offset + 4) (rl / ranlibSize) with
      | error e1 =>
        rw [h3] at h
        dsimp only at h
        simp only [Except.error.injEq] at h
        exact h ▸ ranlibLoop_err mem len _ _ _ _ _ h3
      | ok evs =>
        rw [h3] at h
        dsimp only at h
        simp at h

theorem dumpStep_quiet_err (mem : Nat → Nat) (len o : Nat) (e : Err)
    (h : dumpStep mem len false o = .error e) : e = .oobRead := by
  unfold dumpStep at h
  simp only [Bool.false_eq_true, if_false] at h
  cases h1 : arobj_name mem len o with
  | error e1 =>
    rw [h1] at h
    dsimp only at h
    simp only [Except.error.injEq] at h
    exact h ▸ arobj_name_err mem len _ _ h1
  | ok nr =>
    rw [h1] at h
    dsimp only at h
    cases h2 : symdefTest mem len nr with
    | error e1 =>
      rw [h2] at h
      dsimp only at h
      simp only [Except.error.injEq] at h
      exact h ▸ symdefTest_err mem len _ _ h2
    | ok isSym =>
      rw [h2] at h
      dsimp only at h
      cases h3 : (if isSym then
          dump_symdefs mem len o (if nr.isExt then nr.nameLen else 0) false
        else .ok []) with
      | error e1 =>
        rw [h3] at h
        dsimp only at h
        simp only [Except.error.injEq] at h
        subst h
        cases isSym with
        | true =>
          rw [if_pos rfl] at h3
          exact dump_symdefs_err mem len _ _ _ _ h3
        | false => simp at h3
      | ok evs2 =>
        rw [h3] at h
        dsimp only at h
        cases h4 : arobj_size mem len o with
        | error e1 =>
          rw [h4] at h
          dsimp only at h
          simp only [Except.error.injEq] at h
          exact h ▸ arobj_size_err mem len _ _ h4
        | ok sz => rw [h4] at h; simp at h

/-
Frame lemmas: every component reads the buffer only inside [0, len), so its
result is unchanged when the memory is replaced by one that agrees on
[0, len).  Together they show the scan is a pure function of the buffer's
contents and the verbosity configuration.
-/

theorem skipSpacesF_ok_lt (mem : Nat → Nat) (len : Nat) :
    ∀ (fuel p q : Nat), skipSpacesF mem len p fuel = .ok q → q < len := by
  intro fuel
  induction fuel with
  | zero => intro p q h; simp [skipSpacesF] at h
  | succ fuel ih =>
    intro p q h
    simp only [skipSpacesF] at h
    by_cases hp : p < len
    · rw [if_pos hp] at h
      by_cases hsp : isSpaceB (mem p) = true
      · rw [if_pos hsp] at h
        exact ih _ _ h
      · rw [if_neg hsp] at h
        simp only [Except.ok.injEq] at h
        omega
    · rw [if_neg hp] at h
      simp at h

theorem readU32_frame (mem1 mem2 : Nat → Nat) (len : Nat)
    (H : ∀ i, i < len → mem1 i = mem2 i) :
    ∀ p, readU32 mem1 len p = readU32 mem2 len p := by
  intro p
  unfold readU32
  by_cases hp : p + 4 ≤ len
  · rw [if_pos hp, if_pos hp, H p (by omega), H (p + 1) (by omega),
      H (p + 2) (by omega), H (p + 3) (by omega)]
  · rw [if_neg hp, if_neg hp]

theorem strncmpLit_frame (mem1 mem2 : Nat → Nat) (len : Nat)
    (H : ∀ i, i < len → mem1 i = mem2 i) :
    ∀ (n : Nat) (p : Nat) (lit : List Nat),
      strncmpLit mem1 len p lit n = strncmpLit mem2 len p lit n := by
  intro n
  induction n with
  | zero => intro p lit; rfl
  | succ n ih =>
    intro p lit
    simp only [strncmpLit]
    by_cases hp : p < len
    · simp only [if_pos hp, H p hp, ih]
    · simp only [if_neg hp]

theorem skipSpacesF_frame (mem1 mem2 : Nat → Nat) (len : Nat)
    (H : ∀ i, i < len → mem1 i = mem2 i) :
    ∀ (fuel p : Nat),
      skipSpacesF mem1 len p fuel = skipSpacesF mem2 len p fuel := by
  intro fuel
  induction fuel with
  | zero => intro p; rfl
  | succ fuel ih =>
    intro p
    simp only [skipSpacesF]
    by_cases hp : p < len
    · simp only [if_pos hp, H p hp, ih]
    · simp only [if_neg hp]

theorem readDigitsF_frame (mem1 mem2 : Nat → Nat) (len : Nat)
    (H : ∀ i, i < len → mem1 i = mem2 i) :
    ∀ (fuel p acc : Nat),
      readDigitsF mem1 len p acc fuel = readDigitsF mem2 len p acc fuel := by
  intro fuel
  induction fuel with
  | zero => intro p acc; rfl
  | succ fuel ih =>
    intro p acc
    simp only [readDigitsF]
    by_cases hp : p < len
    · simp only [if_pos hp, H p hp, ih]
    · simp only [if_neg hp]

theorem atoiAt_frame (mem1 mem2 : Nat → Nat) (len : Nat)
    (H : ∀ i, i < len → mem1 i = mem2 i) :
    ∀ p, atoiAt mem1 len p = atoiAt mem2 len p := by
  intro p
  unfold atoiAt
  rw [skipSpacesF_frame mem1 mem2 len H]
  cases hs : skipSpacesF mem2 len p (len + 1 - p) with
  | error e => rfl
  | ok q =>
    have hq : q < len := skipSpacesF_ok_lt mem2 len _ p q hs
    dsimp only
    rw [H q hq]
    simp only [readDigitsF_frame mem1 mem2 len H]

theorem strnlenF_frame (mem1 mem2 : Nat → Nat) (len : Nat)
    (H : ∀ i, i < len → mem1 i = mem2 i) :
    ∀ (fuel base i : Nat),
      strnlenF mem1 len base i fuel = strnlenF mem2 len base i fuel := by
  intro fuel
  induction fuel with
  | zero => intro base i; rfl
  | succ fuel ih =>
    intro base i
    simp only [strnlenF]
    by_cases hp : base + i < len
    · simp only [if_pos hp, H (base + i) hp, ih]
    · simp only [if_neg hp]

theorem bytesAt_frame (mem1 mem2 : Nat → Nat) (len : Nat)
    (H : ∀ i, i < len → mem1 i = mem2 i) :
    ∀ (n p : Nat), bytesAt mem1 len p n = bytesAt mem2 len p n := by
  intro n
  induction n with
  | zero => intro p; rfl
  | succ n ih =>
    intro p
    simp only [bytesAt]
    by_cases hp : p < len
    · simp only [if_pos hp, H p hp, ih]
    · simp only [if_neg hp]

theorem printnBytes_frame (mem1 mem2 : Nat → Nat) (len : Nat)
    (H : ∀ i, i < len → mem1 i = mem2 i) :
    ∀ (n p : Nat), printnBytes mem1 len p n = printnBytes mem2 len p n := by
  intro n
  induction n with
  | zero => intro p; rfl
  | succ n ih =>
    intro p
    simp only [printnBytes]
    by_cases hp : p < len
    · simp only [if_pos hp, H p hp, ih]
    · simp only [if_neg hp]

theorem cstrAtF_frame (mem1 mem2 : Nat → Nat) (len : Nat)
    (H : ∀ i, i < len → mem1 i = mem2 i) :
    ∀ (fuel p : Nat), cstrAtF mem1 len p fuel = cstrAtF mem2 len p fuel := by
  intro fuel
  induction fuel with
  | zero => intro p; rfl
  | succ fuel ih =>
    intro p
    simp only [cstrAtF]
    by_cases hp : p < len
    · simp only [if_pos hp, H p hp, ih]
    · simp only [if_neg hp]

theorem cstrAt_frame (mem1 mem2 : Nat → Nat) (len : Nat)
    (H : ∀ i, i < len → mem1 i = mem2 i) :
    ∀ p, cstrAt mem1 len p = cstrAt mem2 len p := by
  intro p
  unfold cstrAt
  rw [cstrAtF_frame mem1 mem2 len H]

theorem arobj_name_frame (mem1 mem2 : Nat → Nat) (len : Nat)
    (H : ∀ i, i < len → mem1 i = mem2 i) :
    ∀ o, arobj_name mem1 len o = arobj_name mem2 len o := by
  intro o
  unfold arobj_name
  simp only [strncmpLit_frame mem1 mem2 len H,
    strnlenF_frame mem1 mem2 len H, atoiAt_frame mem1 mem2 len H]

theorem arobj_size_frame (mem1 mem2 : Nat → Nat) (len : Nat)
    (H : ∀ i, i < len → mem1 i = mem2 i) :
    ∀ o, arobj_size mem1 len o = arobj_size mem2 len o := by
  intro o
  unfold arobj_size
  simp only [bytesAt_frame mem1 mem2 len H]

theorem dump_obj_frame (mem1 mem2 : Nat → Nat) (len : Nat)
    (H : ∀ i, i < len → mem1 i = mem2 i) :
    ∀ o, dump_obj mem1 len o = dump_obj mem2 len o := by
  intro o
  unfold dump_obj
  simp only [arobj_name_frame mem1 mem2 len H,
    printnBytes_frame mem1 mem2 len H, strncmpLit_frame mem1 mem2 len H]

theorem symdefTest_frame (mem1 mem2 : Nat → Nat) (len : Nat)
    (H : ∀ i, i < len → mem1 i = mem2 i) :
    ∀ nr, symdefTest mem1 len nr = symdefTest mem2 len nr := by
  intro nr
  unfold symdefTest
  simp only [strncmpLit_frame mem1 mem2 len H]

theorem ranlibEntry_frame (mem1 mem2 : Nat → Nat) (len : Nat)
    (H : ∀ i, i < len → mem1 i = mem2 i) :
    ∀ entryP strtabP v,
      ranlibEntry mem1 len entryP strtabP v =
        ranlibEntry mem2 len entryP strtabP v := by
  intro entryP strtabP v
  unfold ranlibEntry
  simp only [readU32_frame mem1 mem2 len H,
    arobj_name_frame mem1 mem2 len H, bytesAt_frame mem1 mem2 len H,
    cstrAt_frame mem1 mem2 len H]

theorem ranlibLoop_frame (mem1 mem2 : Nat → Nat) (len : Nat)
    (H : ∀ i, i < len → mem1 i = mem2 i) :
    ∀ (n : Nat) (strtabP : Nat) (v : Bool) (entryP : Nat),
      ranlibLoop mem1 len strtabP v entryP n =
        ranlibLoop mem2 len strtabP v entryP n := by
  intro n
  induction n with
  | zero => intro strtabP v entryP; rfl
  | succ n ih =>
    intro strtabP v entryP
    simp only [ranlibLoop, ranlibEntry_frame mem1 mem2 len H, ih]

theorem dump_symdefs_frame (mem1 mem2 : Nat → Nat) (len : Nat)
    (H : ∀ i, i < len → mem1 i = mem2 i) :
    ∀ o offset v,
      dump_symdefs mem1 len o offset v = dump_symdefs mem2 len o offset v := by
  intro o offset v
  unfold dump_symdefs
  simp only [readU32_frame mem1 mem2 len H,
    ranlibLoop_frame mem1 mem2 len H]

theorem dumpStep_frame (mem1 mem2 : Nat → Nat) (len : Nat)
    (H : ∀ i, i < len → mem1 i = mem2 i) :
    ∀ v o, dumpStep mem1 len v o = dumpStep mem2 len v o := by
  intro v o
  unfold dumpStep
  simp only [dump_obj_frame mem1 mem2 len H,
    arobj_name_frame mem1 mem2 len H, symdefTest_frame mem1 mem2 len H,
    dump_symdefs_frame mem1 mem2 len H, arobj_size_frame mem1 mem2 len H]

theorem dumpLoop_frame (mem1 mem2 : Nat → Nat) (len : Nat)
    (H : ∀ i, i < len → mem1 i = mem2 i) :
    ∀ (fuel : Nat) (v : Bool) (off : Int),
      dumpLoop mem1 len v off fuel = dumpLoop mem2 len v off fuel := by
  intro fuel
  induction fuel with
  | zero => intro v off; rfl
  | succ fuel ih =>
    intro v off
    simp only [dumpLoop, dumpStep_frame mem1 mem2 len H, ih]

theorem dump_frame (mem1 mem2 : Nat → Nat) (len : Nat)
    (H : ∀ i, i < len → mem1 i = mem2 i) :
    ∀ v fuel, dump mem1 len v fuel = dump mem2 len v fuel := by
  intro v fuel
  unfold dump
  simp only [strncmpLit_frame mem1 mem2 len H,
    readU32_frame mem1 mem2 len H, dumpLoop_frame mem1 mem2 len H]

/-
Further helper lemmas about the embedded operations.
-/

/- Reading at least one byte of a range that extends past the end of the
   buffer is an out-of-bounds access. -/
theorem bytesAt_past (mem : Nat → Nat) (len : Nat) :
    ∀ (n p : Nat), 1 ≤ n → len < p + n →
      bytesAt mem len p n = .error .oobRead := by
  intro n
  induction n with
  | zero => intro p h1 _; omega
  | succ n ih =>
    intro p _ h2
    simp only [bytesAt]
    by_cases hp : p < len
    · rw [if_pos hp, ih (p + 1) (by omega) (by omega)]
    · rw [if_neg hp]

/- Characterization of the hand-rolled strnlen loop: the result is at most
   16, all bytes before it are non-NUL, and if it is below 16 the byte at the
   result index is the terminating NUL. -/
theorem strnlenF_spec (mem : Nat → Nat) (len base : Nat) :
    ∀ (fuel i k : Nat), i ≤ 16 → i + fuel = 17 →
      strnlenF mem len base i fuel = .ok k →
      i ≤ k ∧ k ≤ 16 ∧ (∀ j, i ≤ j → j < k → mem (base + j) ≠ 0) ∧
        (k < 16 → mem (base + k) = 0) := by
  intro fuel
  induction fuel with
  | zero => intro i k hi hfuel _; omega
  | succ fuel ih =>
    intro i k hi hfuel h
    simp only [strnlenF] at h
    by_cases hb : base + i < len
    · rw [if_pos hb] at h
      by_cases h0 : mem (base + i) = 0
      · rw [if_pos h0] at h
        simp only [Except.ok.injEq] at h
        subst h
        exact ⟨le_refl i, hi, fun j hj1 hj2 => by omega, fun _ => h0⟩
      · rw [if_neg h0] at h
        by_cases h16 : i < 16
        · rw [if_pos h16] at h
          obtain ⟨h1, h2, h3, h4⟩ := ih (i + 1) k (by omega) (by omega) h
          refine ⟨by omega, h2, ?_, h4⟩
          intro j hj1 hj2
          rcases Nat.eq_or_lt_of_le hj1 with hj | hj
          · rw [← hj]; exact h0
          · exact h3 j (by omega) hj2
        · rw [if_neg h16] at h
          simp only [Except.ok.injEq] at h
          subst h
          exact ⟨le_refl i, hi, fun j hj1 hj2 => by omega, fun hlt => by omega⟩
    · rw [if_neg hb] at h
      simp at h

/- If the first n buffer bytes at p equal the first n characters of a
   literal and none of them is NUL, strncmp over n bytes reports equality:
   matching a mere prefix of the literal suffices. -/
theorem strncmpLit_of_take (mem : Nat → Nat) (len : Nat) :
    ∀ (n p : Nat) (lit : List Nat),
      bytesAt mem len p n = .ok (lit.take n) →
      (∀ c ∈ lit.take n, c ≠ 0) →
      strncmpLit mem len p lit n = .ok true := by
  intro n
  induction n with
  | zero => intro p lit _ _; rfl
  | succ n ih =>
    intro p lit hb hz
    simp only [bytesAt] at hb
    by_cases hp : p < len
    · rw [if_pos hp] at hb
      cases hr : bytesAt mem len (p + 1) n with
      | error e => rw [hr] at hb; simp at hb
      | ok l =>
        rw [hr] at hb
        simp only [Except.ok.injEq] at hb
        cases lit with
        | nil => simp at hb
        | cons a lit' =>
          simp only [List.take_succ_cons] at hb hz
          have ha : mem p = a := (List.cons.injEq _ _ _ _ ▸ hb).1
          have hl : l = lit'.take n := (List.cons.injEq _ _ _ _ ▸ hb).2
          have ha0 : a ≠ 0 := hz a (List.mem_cons_self a _)
          simp only [strncmpLit, if_pos hp]
          rw [ha]
          simp only [List.headD_cons, if_pos rfl, if_neg ha0, List.tail_cons]
          exact ih (p + 1) lit' (hl ▸ hr)
            (fun c hc => hz c (List.mem_cons_of_mem a hc))
    · rw [if_neg hp] at hb
      simp at hb

/- A quiet member loop never reports the terminator-mismatch failure. -/
theorem dumpLoop_quiet_noFmag (mem : Nat → Nat) (len : Nat) :
    ∀ (fuel : Nat) (off : Int),
      resultHasFmagErr (dumpLoop mem len false off fuel) = false := by
  intro fuel
  induction fuel with
  | zero => intro off; rfl
  | succ fuel ih =>
    intro off
    simp only [dumpLoop]
    by_cases h1 : off < (len : Int)
    · rw [if_pos h1]
      by_cases h0 : (0 : Int) ≤ off
      · rw [if_pos h0]
        cases hs : dumpStep mem len false off.toNat with
        | error e =>
          have he := dumpStep_quiet_err mem len _ _ hs
          subst he
          rfl
        | ok p =>
          obtain ⟨evs, sz⟩ := p
          dsimp only
          cases hrec : dumpLoop mem len false (off + sz) fuel with
          | none => rfl
          | some r =>
            have := ih (off + sz)
            rw [hrec] at this
            cases r with
            | error e =>
              dsimp only
              exact this
            | ok l => rfl
      · rw [if_neg h0]; rfl
    · rw [if_neg h1]; rfl

/- With every visited member advancing by at least one byte, the member loop
   finishes within len + 1 iterations. -/
theorem dumpLoop_term (mem : Nat → Nat) (len : Nat) (v : Bool)
    (H : ∀ o, o < len → stepSizeOK mem len v o = true) :
    ∀ (fuel : Nat) (off : Int), ((len : Int) - off).toNat < fuel →
      (dumpLoop mem len v off fuel).isSome = true := by
  intro fuel
  induction fuel with
  | zero => intro off h; omega
  | succ fuel ih =>
    intro off hfuel
    simp only [dumpLoop]
    by_cases h1 : off < (len : Int)
    · rw [if_pos h1]
      by_cases h0 : (0 : Int) ≤ off
      · rw [if_pos h0]
        cases hs : dumpStep mem len v off.toNat with
        | error e => rfl
        | ok p =>
          obtain ⟨evs, sz⟩ := p
          dsimp only
          have hlt : off.toNat < len := by omega
          have hok := H off.toNat hlt
          unfold stepSizeOK at hok
          rw [hs] at hok
          have hsz : (1 : Int) ≤ sz := of_decide_eq_true hok
          have hrec := ih (off + sz) (by omega)
          cases hrec2 : dumpLoop mem len v (off + sz) fuel with
          | none => rw [hrec2] at hrec; simp at hrec
          | some r => cases r <;> rfl
      · rw [if_neg h0]; rfl
    · rw [if_neg h1]; rfl

/- Decomposition of a successful loop body: the returned advance is exactly
   the strtoll value of the 10 ar_size bytes plus the 60-byte header size. -/
theorem dumpStep_ok_size (mem : Nat → Nat) (len : Nat) (v : Bool)
    (o : Nat) (evs : List Ev) (sz : Int)
    (h : dumpStep mem len v o = .ok (evs, sz)) :
    ∃ bs, bytesAt mem len (o + 48) 10 = .ok bs ∧ sz = parseLL bs + 60 := by
  unfold dumpStep at h
  cases h0 : (if v then dump_obj mem len o else .ok []) with
  | error e => rw [h0] at h; simp at h
  | ok evs1 =>
    rw [h0] at h
    dsimp only at h
    cases h1 : arobj_name mem len o with
    | error e => rw [h1] at h; simp at h
    | ok nr =>
      rw [h1] at h
      dsimp only at h
      cases h2 : symdefTest mem len nr with
      | error e => rw [h2] at h; simp at h
      | ok isSym =>
        rw [h2] at h
        dsimp only at h
        cases h3 : (if isSym then
            dump_symdefs mem len o (if nr.isExt then nr.nameLen else 0) v
          else .ok []) with
        | error e => rw [h3] at h; simp at h
        | ok evs2 =>
          rw [h3] at h
          dsimp only at h
          cases h4 : arobj_size mem len o with
          | error e => rw [h4] at h; simp at h
          | ok sz2 =>
            rw [h4] at h
            simp only [Except.ok.injEq, Prod.mk.injEq] at h
            unfold arobj_size at h4
            cases h5 : bytesAt mem len (o + 48) 10 with
            | error e => rw [h5] at h4; simp at h4
            | ok bs =>
              rw [h5] at h4
              simp only [Except.ok.injEq] at h4
              exact ⟨bs, rfl, by omega⟩

/-
Claim theorems.
-/

/-- C1 (counterexample): scanning a 68-byte archive whose single member is
named "__.SYMDEF" with declared payload size 0 ends in an out-of-bounds
access by the symbol-index decoder (its count field would lie at offset 68,
the end of the buffer): the run ends in the decoder reading past the buffer,
not in a checked OutOfBounds diagnostic. -/
theorem C1_counterexample :
    dump (buf cexC1buf) 68 false 2 = some (.error .oobRead) := by decide

/-- C1 (amended): the symbol-index decoder checks no offset derived from the
untrusted count and length fields: its only failure mode is the
out-of-bounds memory access itself — every error it can produce is the
access marker, never a defensive OutOfBounds diagnostic raised before
reading. -/
theorem C1_symdefs_error_is_oob_access (mem : Nat → Nat)
    (len o offset : Nat) (v : Bool) (e : Err)
    (h : dump_symdefs mem len o offset v = .error e) : e = Err.oobRead :=
  dump_symdefs_err mem len o offset v e h

/-- C1 (witness): the amended theorem applied to the concrete 68-byte
archive of the counterexample. -/
theorem C1_witness : Err.oobRead = Err.oobRead :=
  C1_symdefs_error_is_oob_access (buf cexC1buf) 68 8 0 false Err.oobRead
    (by decide)

/-- C2 (counterexample): in a 68-byte buffer, the member header at offset 8
declares extended name length 100; resolution succeeds (no OutOfBounds
failure is raised), and reading the declared 100 name bytes at offset 68 is
an out-of-bounds access. -/
theorem C2_counterexample :
    arobj_name (buf cexC2buf) 68 8 = .ok ⟨68, 100, true⟩ ∧
      bytesAt (buf cexC2buf) 68 68 100 = .error .oobRead := by decide

/-- C2 (amended): extended-name resolution is unchecked: whenever the name
field carries the marker and atoi yields v, resolution succeeds with the
name placed right after the 60-byte header and length equal to the size_t
conversion of v, with no comparison against the buffer bound; reading a
name range that extends past the buffer is then an out-of-bounds access,
never a reported OutOfBounds failure of the resolver. -/
theorem C2_extended_resolution_unchecked :
    (∀ (mem : Nat → Nat) (len o : Nat) (v : Int),
        strncmpLit mem len o AR_EFMT1b 3 = .ok true →
        atoiAt mem len (o + 3) = .ok v →
        arobj_name mem len o = .ok ⟨o + hdrSize, toSizeT v, true⟩) ∧
    (∀ (mem : Nat → Nat) (len p n : Nat), 1 ≤ n → len < p + n →
        bytesAt mem len p n = .error .oobRead) := by
  constructor
  · intro mem len o v h1 h2
    unfold arobj_name
    rw [h1]
    dsimp only
    rw [h2]
  · exact fun mem len p n h1 h2 => bytesAt_past mem len n p h1 h2

/-- C2 (witness): the amended theorem applied to the 69-byte extension of
the counterexample buffer. -/
theorem C2_witness :
    arobj_name (buf cexC2buf) 69 8 = .ok ⟨68, 100, true⟩ ∧
      bytesAt (buf cexC2buf) 69 68 100 = .error .oobRead :=
  ⟨C2_extended_resolution_unchecked.1 (buf cexC2buf) 69 8 100 (by decide)
      (by decide),
    C2_extended_resolution_unchecked.2 (buf cexC2buf) 69 68 100 (by decide)
      (by decide)⟩

/-- C6: a buffer whose first four bytes are the fat-binary magic in either
byte order (0xcafebabe stored big-endian or byte-reversed) makes the walker
fail with the fat-archive diagnostic: never the invalid-magic diagnostic,
and never a member scan. -/
theorem C6_fat_magic_rejected (mem : Nat → Nat) (len : Nat) (v : Bool)
    (fuel : Nat) (hlen : 4 ≤ len)
    (hfat : (mem 0 = 202 ∧ mem 1 = 254 ∧ mem 2 = 186 ∧ mem 3 = 190) ∨
      (mem 0 = 190 ∧ mem 1 = 186 ∧ mem 2 = 254 ∧ mem 3 = 202)) :
    dump mem len v fuel = some (.error .fatArchive) := by
  have h0 : 0 < len := by omega
  have hm0 : ¬ mem 0 = 33 := by
    rcases hfat with ⟨h, _⟩ | ⟨h, _⟩ <;> omega
  have h1 : strncmpLit mem len 0 ARMAGb SARMAG = .ok false := by
    simp only [SARMAG, show (8 : Nat) = 7 + 1 from rfl, strncmpLit, ARMAGb,
      List.headD_cons]
    rw [if_pos h0, if_neg hm0]
  unfold dump
  rw [h1]
  dsimp only
  rcases hfat with ⟨ha, hb, hc, hd⟩ | ⟨ha, hb, hc, hd⟩
  · have h2 : readU32 mem len 0 = .ok FAT_CIGAM := by
      unfold readU32
      rw [if_pos (by omega : 0 + 4 ≤ len), ha, hb, hc, hd]
      norm_num [FAT_CIGAM]
    rw [h2]
    dsimp only
    rw [if_pos (Or.inr rfl)]
  · have h2 : readU32 mem len 0 = .ok FAT_MAGIC := by
      unfold readU32
      rw [if_pos (by omega : 0 + 4 ≤ len), ha, hb, hc, hd]
      norm_num [FAT_MAGIC]
    rw [h2]
    dsimp only
    rw [if_pos (Or.inl rfl)]

/-- C6 (witness): the theorem applied to the 4-byte buffer holding exactly
the fat magic. -/
theorem C6_witness :
    dump (buf [202, 254, 186, 190]) 4 false 3 = some (.error .fatArchive) :=
  C6_fat_magic_rejected (buf [202, 254, 186, 190]) 4 false 3 (by norm_num)
    (Or.inl (by decide))

/-- C9: scanning is deterministic and a pure function of the buffer's
contents and the verbosity configuration: two memories agreeing on the
buffer range produce identical scans, for any fuel. -/
theorem C9_scan_deterministic (mem1 mem2 : Nat → Nat) (len : Nat) (v : Bool)
    (fuel : Nat) (H : ∀ i, i < len → mem1 i = mem2 i) :
    dump mem1 len v fuel = dump mem2 len v fuel :=
  dump_frame mem1 mem2 len H v fuel

/-- C9 (witness): the theorem applied to the concrete 68-byte buffer and a
memory that differs from it only beyond offset 68. -/
theorem C9_witness :
    dump (buf cexC3buf) 68 false 2 = dump memBeyond 68 false 2 :=
  C9_scan_deterministic (buf cexC3buf) memBeyond 68 false 2 (by decide)

/-- C3 (counterexample): a single-member archive whose header carries the
corrupted terminator "XX": the quiet scan completes successfully without
ever examining the terminator, while the same buffer scanned verbosely
fails with the terminator-mismatch fatal error. -/
theorem C3_counterexample :
    dump (buf cexC3buf) 68 false 2 = some (.ok []) ∧
      dump (buf cexC3buf) 68 true 2 = some (.error .badFmag) := by decide

/-- C3 (amended): the fixed 2-byte terminator field is compared against its
expected value only when verbosity is enabled: a quiet scan can never
produce the terminator-mismatch failure, and a member that passes the
verbose per-member dump necessarily has a matching terminator. -/
theorem C3_terminator_checked_only_when_verbose :
    (∀ (mem : Nat → Nat) (len fuel : Nat),
        resultHasFmagErr (dump mem len false fuel) = false) ∧
    (∀ (mem : Nat → Nat) (len o : Nat) (evs : List Ev),
        dump_obj mem len o = .ok evs →
        strncmpLit mem len (o + 58) ARFMAGb 2 = .ok true) := by
  constructor
  · intro mem len fuel
    unfold dump
    cases h1 : strncmpLit mem len 0 ARMAGb SARMAG with
    | error e =>
      have he := strncmpLit_err mem len _ _ _ _ h1
      subst he
      rfl
    | ok b =>
      cases b with
      | true => exact dumpLoop_quiet_noFmag mem len fuel _
      | false =>
        dsimp only
        cases h2 : readU32 mem len 0 with
        | error e =>
          have he := readU32_err mem len _ _ h2
          subst he
          rfl
        | ok w =>
          dsimp only
          split <;> rfl
  · intro mem len o evs h
    unfold dump_obj at h
    cases h1 : arobj_name mem len o with
    | error e => rw [h1] at h; simp at h
    | ok nr =>
      rw [h1] at h
      dsimp only at h
      cases h2 : printnBytes mem len nr.namePos (printCount nr.nameLen) with
      | error e => rw [h2] at h; simp at h
      | ok nameB =>
        rw [h2] at h
        dsimp only at h
        cases h3 : printnBytes mem len (o + 16) 12 with
        | error e => rw [h3] at h; simp at h
        | ok dateB =>
          rw [h3] at h
          dsimp only at h
          cases h4 : printnBytes mem len (o + 28) 6 with
          | error e => rw [h4] at h; simp at h
          | ok uidB =>
            rw [h4] at h
            dsimp only at h
            cases h5 : printnBytes mem len (o + 34) 6 with
            | error e => rw [h5] at h; simp at h
            | ok gidB =>
              rw [h5] at h
              dsimp only at h
              cases h6 : printnBytes mem len (o + 40) 8 with
              | error e => rw [h6] at h; simp at h
              | ok modeB =>
                rw [h6] at h
                dsimp only at h
                cases h7 : printnBytes mem len (o + 48) 10 with
                | error e => rw [h7] at h; simp at h
                | ok sizeB =>
                  rw [h7] at h
                  dsimp only at h
                  cases h8 : printnBytes mem len (o + 58) 2 with
                  | error e => rw [h8] at h; simp at h
                  | ok fmagB =>
                    rw [h8] at h
                    dsimp only at h
                    cases h9 : strncmpLit mem len (o + 58) ARFMAGb 2 with
                    | error e => rw [h9] at h; simp at h
                    | ok b =>
                      cases b with
                      | true => rfl
                      | false => rw [h9] at h; simp at h

/-- C3 (witness): the amended theorem applied at concrete inputs: the quiet
scan of the corrupted-terminator buffer, and the verbose per-member dump of
the well-formed "__.SYMDEF" member of the C1 buffer. -/
theorem C3_witness :
    resultHasFmagErr (dump (buf cexC3buf) 68 false 2) = false ∧
      strncmpLit (buf cexC1buf) 68 (8 + 58) ARFMAGb 2 = .ok true :=
  ⟨C3_terminator_checked_only_when_verbose.1 (buf cexC3buf) 68 2,
    C3_terminator_checked_only_when_verbose.2 (buf cexC1buf) 68 8
      [Ev.memberHdr [95, 95, 46, 83, 89, 77, 68, 69, 70] false [] [] [] []
        [48, 32, 32, 32, 32, 32, 32, 32, 32, 32] [96, 10]] (by decide)⟩

/-- C4 (counterexample): a member whose resolved name is "__" — equal to
neither "__.SYMDEF" nor "__.SYMDEF SORTED" — passes the index-member test,
and the scan of the 68-byte archive containing it aborts with the decoder's
out-of-bounds access, showing the decoder was invoked. -/
theorem C4_counterexample :
    arobj_name (buf cexC4buf) 68 8 = .ok ⟨8, 2, false⟩ ∧
      bytesAt (buf cexC4buf) 68 8 2 = .ok [95, 95] ∧
      symdefTest (buf cexC4buf) 68 ⟨8, 2, false⟩ = .ok true ∧
      dump (buf cexC4buf) 68 false 2 = some (.error .oobRead) := by decide

/-- C4 (amended): the decoder-invocation test compares only the resolved
name's own length of bytes, so any member whose name bytes form a non-NUL
prefix of "__.SYMDEF" (in particular any strict prefix such as "__") — or
likewise of "__.SYMDEF SORTED" — passes the test; equality with one of the
two index names is not required. -/
theorem C4_name_prefix_triggers_decoder (mem : Nat → Nat) (len p m : Nat)
    (b : Bool) (hm : m ≤ 9)
    (hbytes : bytesAt mem len p m = .ok (SYMDEFb.take m)) :
    symdefTest mem len ⟨p, m, b⟩ = .ok true := by
  have hnz : ∀ c ∈ SYMDEFb.take m, c ≠ 0 := by
    intro c hc
    have hsub : SYMDEFb.take m ⊆ SYMDEFb.take 9 := by
      rw [show SYMDEFb.take m = (SYMDEFb.take 9).take m from by
        rw [List.take_take]
        congr 1
        omega]
      exact List.take_subset _ _
    exact (show ∀ x ∈ SYMDEFb.take 9, x ≠ 0 by decide) c (hsub hc)
  have hs := strncmpLit_of_take mem len m p SYMDEFb hbytes hnz
  unfold symdefTest
  rw [hs]

/-- C4 (witness): the amended theorem applied to the concrete member named
"__" (name length 2, a strict prefix of "__.SYMDEF"). -/
theorem C4_witness :
    symdefTest (buf cexC4buf) 68 ⟨8, 2, true⟩ = .ok true :=
  C4_name_prefix_triggers_decoder (buf cexC4buf) 68 8 2 true (by decide)
    (by decide)

/- The member loop never finishes on the "-60" archive: the computed total
   size is 0 and the offset stays at 8 forever. -/
theorem cexC5_loop_none :
    ∀ fuel, dumpLoop (buf cexC5buf) 68 false 8 fuel = none := by
  intro fuel
  induction fuel with
  | zero => rfl
  | succ fuel ih =>
    have hstep : dumpStep (buf cexC5buf) 68 false (Int.toNat 8) =
        .ok ([], 0) := by decide
    simp only [dumpLoop, hstep]
    norm_num [ih]

/-- C5 (counterexample): the scan does not terminate on every buffer: on the
68-byte archive whose single member's ar_size field reads "-60", the loop
body succeeds with total size 0, the offset never advances, and no amount
of fuel finishes the scan. -/
theorem C5_counterexample :
    dumpDiverges (buf cexC5buf) 68 false ∧
      dumpStep (buf cexC5buf) 68 false 8 = .ok ([], 0) := by
  refine ⟨fun fuel => ?_, by decide⟩
  unfold dump
  rw [show strncmpLit (buf cexC5buf) 68 0 ARMAGb SARMAG = .ok true from
    by decide]
  dsimp only
  exact cexC5_loop_none fuel

/-- C5 (amended): the scan is a bounded computation on every buffer whose
visited members all advance the offset by at least one byte (every
successful loop body returns a total size of at least 1): len + 1 units of
fuel always suffice, for all byte contents satisfying that condition; a
size field parsing to -60 or less violates it and makes the walk diverge. -/
theorem C5_terminates_when_advancing (mem : Nat → Nat) (len : Nat)
    (v : Bool) (H : ∀ o, o < len → stepSizeOK mem len v o = true)
    (fuel : Nat) (hfuel : len + 1 ≤ fuel) :
    (dump mem len v fuel).isSome = true := by
  unfold dump
  cases h1 : strncmpLit mem len 0 ARMAGb SARMAG with
  | error e => rfl
  | ok b =>
    cases b with
    | true =>
      exact dumpLoop_term mem len v H fuel _
        (by simp only [SARMAG]; omega)
    | false =>
      dsimp only
      cases h2 : readU32 mem len 0 with
      | error e => rfl
      | ok w =>
        dsimp only
        split <;> rfl

/-- C5 (witness): the amended theorem applied to the concrete 68-byte
archive with a well-formed size field, where every loop body advances by 60
bytes. -/
theorem C5_witness : (dump (buf cexC3buf) 68 false 69).isSome = true :=
  C5_terminates_when_advancing (buf cexC3buf) 68 false (by decide) 69
    (by norm_num)

/-- C7: the walker's sequencing invariant: a successful loop body at header
offset o returns exactly sz = strtoll(the 10 ar_size bytes) + 60 — the
decimal-parsed payload size plus the fixed header record size, with no
even-byte padding adjustment — and the loop continues at off + sz
exactly. -/
theorem C7_advance_is_parsed_size_plus_header :
    (∀ (mem : Nat → Nat) (len : Nat) (v : Bool) (o : Nat) (evs : List Ev)
        (sz : Int), dumpStep mem len v o = .ok (evs, sz) →
        ∃ bs, bytesAt mem len (o + 48) 10 = .ok bs ∧
          sz = parseLL bs + 60) ∧
    (∀ (mem : Nat → Nat) (len : Nat) (v : Bool) (off : Int) (fuel : Nat)
        (evs : List Ev) (sz : Int), off < (len : Int) → 0 ≤ off →
        dumpStep mem len v off.toNat = .ok (evs, sz) →
        dumpLoop mem len v off (fuel + 1) =
          (match dumpLoop mem len v (off + sz) fuel with
            | none => none
            | some (.error e) => some (.error e)
            | some (.ok l) => some (.ok (evs ++ l)))) := by
  constructor
  · exact fun mem len v o evs sz h => dumpStep_ok_size mem len v o evs sz h
  · intro mem len v off fuel evs sz h1 h0 hstep
    simp only [dumpLoop]
    rw [if_pos h1, if_pos h0, hstep]

/-- C7 (witness): the theorem applied to the concrete single-member archive
with size field "0": the body returns total size 0 + 60 and the loop
continues at offset 8 + 60. -/
theorem C7_witness :
    (∃ bs, bytesAt (buf cexC3buf) 68 (8 + 48) 10 = .ok bs ∧
        (60 : Int) = parseLL bs + 60) ∧
      dumpLoop (buf cexC3buf) 68 false 8 2 =
        (match dumpLoop (buf cexC3buf) 68 false (8 + 60) 1 with
          | none => none
          | some (.error e) => some (.error e)
          | some (.ok l) => some (.ok ([] ++ l))) :=
  ⟨C7_advance_is_parsed_size_plus_header.1 (buf cexC3buf) 68 false 8 [] 60
      (by decide),
    C7_advance_is_parsed_size_plus_header.2 (buf cexC3buf) 68 false 8 1 []
      60 (by norm_num) (by norm_num) (by decide)⟩

/-- C8: for a header whose name field does not begin with the "#1/" marker,
resolution returns a direct name located at the field itself whose length
is at most the 16-byte field width, with every byte before the reported
length non-NUL and, when the length is below 16, a NUL at the length
index: the name stops at the first NUL or the field width, whichever comes
first. -/
theorem C8_direct_name_bounded (mem : Nat → Nat) (len o : Nat)
    (nr : NameRes) (hdir : strncmpLit mem len o AR_EFMT1b 3 = .ok false)
    (hres : arobj_name mem len o = .ok nr) :
    nr.isExt = false ∧ nr.namePos = o ∧ nr.nameLen ≤ 16 ∧
      (∀ j, j < nr.nameLen → mem (o + j) ≠ 0) ∧
      (nr.nameLen < 16 → mem (o + nr.nameLen) = 0) := by
  unfold arobj_name at hres
  rw [hdir] at hres
  dsimp only at hres
  cases hs : strnlenF mem len o 0 17 with
  | error e => rw [hs] at hres; simp at hres
  | ok k =>
    rw [hs] at hres
    simp only [Except.ok.injEq] at hres
    subst hres
    obtain ⟨h1, h2, h3, h4⟩ := strnlenF_spec mem len o 17 0 k (by omega)
      rfl hs
    exact ⟨rfl, rfl, h2, fun j hj => h3 j (by omega) hj, h4⟩

/-- C8 (witness): the theorem applied to the member named "a" (direct name
of length 1, NUL-terminated inside the 16-byte field). -/
theorem C8_witness :
    (NameRes.mk 8 1 false).isExt = false ∧
      (NameRes.mk 8 1 false).namePos = 8 ∧
      (NameRes.mk 8 1 false).nameLen ≤ 16 ∧
      (∀ j, j < (NameRes.mk 8 1 false).nameLen →
        buf cexC3buf (8 + j) ≠ 0) ∧
      ((NameRes.mk 8 1 false).nameLen < 16 →
        buf cexC3buf (8 + (NameRes.mk 8 1 false).nameLen) = 0) :=
  C8_direct_name_bounded (buf cexC3buf) 68 8 ⟨8, 1, false⟩ (by decide)
    (by decide)

/-- C10: a member whose resolved name has length zero passes the
index-member test (the strncmp examines zero bytes), and the loop body at
such a member reduces to the branch that invokes the symbol-index decoder
on it. -/
theorem C10_empty_name_triggers_decoder (mem : Nat → Nat) (len : Nat)
    (v : Bool) (o : Nat) (nr : NameRes)
    (hres : arobj_name mem len o = .ok nr) (hlen : nr.nameLen = 0) :
    symdefTest mem len nr = .ok true ∧
      dumpStep mem len v o =
        (match (if v then dump_obj mem len o else .ok []) with
          | .error e => .error e
          | .ok evs1 =>
            match dump_symdefs mem len o
                (if nr.isExt then nr.nameLen else 0) v with
            | .error e => .error e
            | .ok evs2 =>
              match arobj_size mem len o with
              | .error e => .error e
              | .ok sz => .ok (evs1 ++ evs2, sz)) := by
  have hsym : symdefTest mem len nr = .ok true := by
    unfold symdefTest
    rw [hlen]
    rfl
  refine ⟨hsym, ?_⟩
  unfold dumpStep
  cases hv : (if v then dump_obj mem len o else Except.ok []) with
  | error e => rfl
  | ok evs1 =>
    dsimp only
    rw [hres]
    dsimp only
    rw [hsym]
    dsimp only
    rfl

/-- C10 (witness): the theorem applied to the member whose name field begins
with a NUL byte, whose resolved name therefore has length zero. -/
theorem C10_witness :
    symdefTest (buf cexC10buf) 68 ⟨8, 0, false⟩ = .ok true ∧
      dumpStep (buf cexC10buf) 68 false 8 =
        (match (Except.ok [] : Except Err (List Ev)) with
          | .error e => .error e
          | .ok evs1 =>
            match dump_symdefs (buf cexC10buf) 68 8 0 false with
            | .error e => .error e
            | .ok evs2 =>
              match arobj_size (buf cexC10buf) 68 8 with
              | .error e => .error e
              | .ok sz => .ok (evs1 ++ evs2, sz)) :=
  C10_empty_name_triggers_decoder (buf cexC10buf) 68 false 8 ⟨8, 0, false⟩
    (by decide) rfl

end Ardump
